import Mathlib

/-!
# Verification of the task-scanning core of `obsidian-tasks-cli`

Shallow embedding of `src/obsidian_tasks/tasks.py` and the relevant parts of
`src/obsidian_tasks/cli.py`.  Lines of text are embedded as `List Char`,
filesystem paths as lists of path components (`List String`), and a vault
(filesystem) as a list of files, each a path paired with its full content.

Modelling conventions, noted once here:
* Python `str` operations are modelled on `List Char`; the whitespace and
  line-boundary character classes follow CPython's `str.strip`/`str.splitlines`.
* `str.lower` is modelled on the ASCII range (no character outside ASCII
  lowercases to an ASCII letter, so every comparison against an ASCII literal
  made by the program is preserved exactly).
* `pathlib` path ordering (used by Python `sorted` on paths) is modelled as
  lexicographic comparison of the joined path string, `~`-expansion and
  `Path.resolve` as the identity (no symlinks / relative segments in the model).
* Reading a file that does not exist is modelled as reading empty content; the
  program only reads paths it has just enumerated, so the branch is dead.
* `date` values are `(year, month, day)` triples compared lexicographically,
  with CPython's calendar-validity check (`date(y, m, d)` raising `ValueError`
  exactly when the triple is out of range, leap years included).
-/

namespace ObsidianTasks

/-- Whitespace characters recognised by CPython's `str.strip()` /
`str.lstrip()` (the `str.isspace` class). -/
def isPySpace (c : Char) : Bool :=
  c == ' ' || c == '\t' || c == '\n' || c == '\r' || c == '\x0b' || c == '\x0c' ||
  c == '\x1c' || c == '\x1d' || c == '\x1e' || c == '\x1f' || c == '\x85' || c == '\xa0' ||
  c == ' ' || (' ' ≤ c && c ≤ ' ') || c == ' ' || c == ' ' ||
  c == ' ' || c == ' ' || c == '　'

/-- Python `line.lstrip()`. -/
def pyLstrip (s : List Char) : List Char := s.dropWhile isPySpace

/-- Python `line.rstrip()` (whitespace on the right). -/
def pyRstripWs (s : List Char) : List Char := (s.reverse.dropWhile isPySpace).reverse

/-- Python `line.strip()`. -/
def pyStrip (s : List Char) : List Char := pyRstripWs (pyLstrip s)

/-- Python `text.strip()` on a Lean `String`. -/
def pyStripS (s : String) : String := ⟨pyStrip s.data⟩

/-- Python `line.rstrip("\n")`: remove trailing newline characters only. -/
def rstripNl (s : List Char) : List Char := (s.reverse.dropWhile (· == '\n')).reverse

/-- Line-boundary characters of CPython's `str.splitlines()` (besides the
`"\r\n"` pair, which is handled as a single boundary). -/
def isLineBoundary (c : Char) : Bool :=
  c == '\n' || c == '\r' || c == '\x0b' || c == '\x0c' ||
  c == '\x1c' || c == '\x1d' || c == '\x1e' || c == '\x85' ||
  c == ' ' || c == ' '

/-- Worker for `pySplitlines`; `acc` holds the current line reversed. -/
def pySplitlinesAux : List Char → List Char → List (List Char)
  | [], acc => if acc.isEmpty then [] else [acc.reverse]
  | '\r' :: '\n' :: rest, acc => acc.reverse :: pySplitlinesAux rest []
  | c :: rest, acc =>
      if isLineBoundary c then acc.reverse :: pySplitlinesAux rest []
      else pySplitlinesAux rest (c :: acc)

/-- Python `content.splitlines()`. -/
def pySplitlines (content : List Char) : List (List Char) := pySplitlinesAux content []

/-- Python `str.lower()` restricted to one character: ASCII uppercase letters
(code points 65–90) map to lowercase, everything else is returned unchanged.
No character outside this range lowercases to an ASCII letter, so every
comparison against an ASCII literal made by the program is preserved. -/
def pyCharLower (c : Char) : Char :=
  if 65 ≤ c.toNat ∧ c.toNat ≤ 90 then Char.ofNat (c.toNat + 32) else c

/-- Python `str.lower()`. -/
def pyLower (s : List Char) : List Char := s.map pyCharLower

/-- `tasks.is_markdown_task_line`: recognise an Obsidian/Markdown task line.
Mirrors the source: `lstrip`, a `startswith` test for `"- ["` / `"* ["`, a
minimum-length test (`len(s) < 6` returns `False`), then the positional
character checks `s[0] in {"-", "*"} and s[1:3] == " [" and s[4] == "]"`. -/
def is_markdown_task_line (line : List Char) : Bool :=
  let s := pyLstrip line
  if !(List.isPrefixOf "- [".data s || List.isPrefixOf "* [".data s) then false
  else if s.length < 6 then false
  else
    match s with
    | c0 :: c1 :: c2 :: _ :: c4 :: _ =>
        (c0 == '-' || c0 == '*') && (c1 == ' ' && c2 == '[') && c4 == ']'
    | _ => false

/-- `tasks.task_status_from_line`: the status encoded in the checkbox token
`s[2:5]`, or `none` for a non-task line / unrecognised token. -/
def task_status_from_line (line : List Char) : Option String :=
  if !is_markdown_task_line line then none
  else
    let s := pyLstrip line
    let token := (s.drop 2).take 3
    if token = "[ ]".data then some "open"
    else if pyLower token = "[x]".data then some "done"
    else if token = "[-]".data then some "cancelled"
    else if token = "[>]".data then some "scheduled"
    else none

/-- `tasks.is_priority_task_line`: a task line whose three characters after the
closing bracket (`s[5:8]`) are exactly `" ! "`. -/
def is_priority_task_line (line : List Char) : Bool :=
  if !is_markdown_task_line line then false
  else
    let s := pyLstrip line
    decide (8 ≤ s.length) && ((s.drop 5).take 3 = " ! ".data)

/-- `tasks.normalize_task_text`: strip, reject empty (`ValueError`, modelled as
`none`), keep a task line verbatim, otherwise prepend `"- [ ] "`. -/
def normalize_task_text (text : List Char) : Option (List Char) :=
  let s := pyStrip text
  if s.isEmpty then none
  else if is_markdown_task_line s then some s
  else some ("- [ ] ".data ++ s)

/-- A calendar date, as produced by Python's `datetime.date`. -/
structure Date where
  year : Nat
  month : Nat
  day : Nat
deriving Repr, DecidableEq

/-- Python `date` ordering (`d1 < d2`): lexicographic on (year, month, day). -/
def dateLt (a b : Date) : Bool :=
  a.year < b.year || (a.year == b.year &&
    (a.month < b.month || (a.month == b.month && a.day < b.day)))

/-- Value of a digit string (most significant first). -/
def digitsToNat (ds : List Char) : Nat :=
  ds.foldl (fun acc c => 10 * acc + (c.toNat - '0'.toNat)) 0

/-- Length of month `m` in year `y`, with the Gregorian leap rule, as used by
CPython's `datetime.date` validity check. -/
def daysInMonth (y m : Nat) : Nat :=
  if m = 2 then (if y % 4 = 0 ∧ (y % 100 ≠ 0 ∨ y % 400 = 0) then 29 else 28)
  else if m = 4 ∨ m = 6 ∨ m = 9 ∨ m = 11 then 30
  else 31

/-- `tasks.try_parse_ymd`: strip, match `^(\d{4})-(\d{2})-(\d{2})$`, then build
a `date`; an out-of-range month/day (`ValueError`) yields `none`.  A 4-digit
year is at most 9999, so only the `year ≥ 1` bound of `date` needs checking. -/
def try_parse_ymd (value : List Char) : Option Date :=
  match pyStrip value with
  | [y1, y2, y3, y4, h1, m1, m2, h2, d1, d2] =>
    if ([y1, y2, y3, y4, m1, m2, d1, d2].all (·.isDigit)) && h1 == '-' && h2 == '-' then
      let y := digitsToNat [y1, y2, y3, y4]
      let m := digitsToNat [m1, m2]
      let d := digitsToNat [d1, d2]
      if 1 ≤ y ∧ 1 ≤ m ∧ m ≤ 12 ∧ 1 ≤ d ∧ d ≤ daysInMonth y m then some ⟨y, m, d⟩
      else none
    else none
  | _ => none

/-- One attempted match of `\[\[(\d{4}-\d{2}-\d{2})\]\]` at the start of `s`,
returning the 10-character capture group.  The whole match spans 14 chars. -/
def matchDateLinkAt : List Char → Option (List Char)
  | '[' :: '[' :: y1 :: y2 :: y3 :: y4 :: h1 :: m1 :: m2 :: h2 :: d1 :: d2 :: ']' :: ']' :: _ =>
    if (y1.isDigit && y2.isDigit && y3.isDigit && y4.isDigit &&
        h1 == '-' && m1.isDigit && m2.isDigit && h2 == '-' && d1.isDigit && d2.isDigit) then
      some [y1, y2, y3, y4, h1, m1, m2, h2, d1, d2]
    else none
  | _ => none

/-- `_DATE_WIKILINK_RE.findall(line)`: leftmost, non-overlapping matches; on a
failed attempt the scan advances one character, on a match it advances past
the whole 14-character match. -/
def findallAux : Nat → List Char → List (List Char)
  | 0, _ => []
  | _, [] => []
  | fuel + 1, c :: rest =>
    match matchDateLinkAt (c :: rest) with
    | some cap => cap :: findallAux fuel (rest.drop 13)
    | none => findallAux fuel rest

/-- See `findallAux`; the scan consumes at least one character per step, so
`s.length` steps always suffice. -/
def findall_date_wikilinks (s : List Char) : List (List Char) :=
  findallAux s.length s

/-- A file of the modelled filesystem: a path (list of components) and its
full text content. -/
structure FSFile where
  path : List String
  content : List Char
deriving Repr, DecidableEq

/-- The modelled filesystem (a vault): the list of its files. -/
abbrev FS := List FSFile

/-- Content of the file at `p`, if `p` is a file. -/
def fileAt (fs : FS) (p : List String) : Option (List Char) :=
  (List.find? (fun f => f.path = p) fs).map (·.content)

/-- Reading a file; a missing path reads as empty (the program only reads
paths it has just enumerated). -/
def readFile (fs : FS) (p : List String) : List Char := (fileAt fs p).getD []

/-- `p.is_file()`. -/
def isFile (fs : FS) (p : List String) : Bool :=
  (List.find? (fun f => f.path = p) fs).isSome

/-- `p` lies strictly below directory `d`. -/
def underDir (d p : List String) : Bool := List.isPrefixOf d p && d ≠ p

/-- `p.is_dir()`: some file lies strictly below `p` (empty directories are not
representable in the model). -/
def isDir (fs : FS) (p : List String) : Bool :=
  List.any fs (fun f => underDir p f.path)

/-- `str(path)` as characters: the components joined with `"/"` (used for
`sorted` and dedup keys). -/
def pathChars (p : List String) : List Char :=
  List.intercalate ['/'] (p.map String.data)

/-- `str(path)` (used as the dedup key of `cli._cmd_day_offset`). -/
def pathString (p : List String) : String := ⟨pathChars p⟩

/-- Lexicographic strict order on character lists: Python `str` `<`. -/
def charListLt : List Char → List Char → Bool
  | [], [] => false
  | [], _ :: _ => true
  | _ :: _, [] => false
  | a :: as, b :: bs => if a < b then true else if a = b then charListLt as bs else false

/-- Lexicographic order on character lists: Python `str` `<=`. -/
def charListLe : List Char → List Char → Bool
  | [], _ => true
  | _ :: _, [] => false
  | a :: as, b :: bs => if a < b then true else if a = b then charListLe as bs else false

/-- Insert into a sorted list, before the first element not below `a`
(stable, as Python's sort). -/
def insertLe {α : Type} (le : α → α → Bool) (a : α) : List α → List α
  | [] => [a]
  | b :: bs => if le a b then a :: b :: bs else b :: insertLe le a bs

/-- Stable insertion sort by a boolean order, modelling Python `sorted`. -/
def sortLe {α : Type} (le : α → α → Bool) : List α → List α
  | [] => []
  | a :: as => insertLe le a (sortLe le as)

/-- Final component of a path, as characters. -/
def lastName (p : List String) : List Char := (p.getLastD "").data

/-- Index of the last `'.'` in a name (`name.rfind('.')`). -/
def rfindDot (name : List Char) : Option Nat :=
  match List.findIdx? (· == '.') name.reverse with
  | some j => some (name.length - 1 - j)
  | none => none

/-- `pathlib.PurePath.suffix`: the extension from the last dot, unless the dot
is leading or trailing. -/
def pySuffix (name : List Char) : List Char :=
  match rfindDot name with
  | some i => if 0 < i ∧ i < name.length - 1 then name.drop i else []
  | none => []

/-- `pathlib.PurePath.stem`: the name with `pySuffix` removed. -/
def pyStem (name : List Char) : List Char :=
  match rfindDot name with
  | some i => if 0 < i ∧ i < name.length - 1 then name.take i else name
  | none => name

/-- `glob`/`rglob` pattern `*.md` applied to a file name (case-sensitive, as
on a POSIX filesystem). -/
def globMd (name : List Char) : Bool := List.isSuffixOf ".md".data name

/-- Path order of Python `sorted` on `pathlib` paths: lexicographic by the
joined path string. -/
def pathLeB (p q : List String) : Bool := charListLe (pathChars p) (pathChars q)

/-- `sorted(paths)`. -/
def sortPaths (l : List (List String)) : List (List String) := sortLe pathLeB l

/-- `tasks.Task`: an extracted task record (`file`, `line_no`, `raw`). -/
structure Task where
  file : List String
  line_no : Nat
  raw : List Char
deriving Repr, DecidableEq

/-- `enumerate(content.splitlines(), start=1)`. -/
def numberedLines (content : List Char) : List (Nat × List Char) :=
  (pySplitlines content).enum.map (fun p => (p.1 + 1, p.2))

/-- Body of `tasks.extract_tasks_from_file`, on the file's content: emit a
`Task` for every line where `is_markdown_task_line` holds, with its 1-based
line number and the line with trailing newlines stripped. -/
def extract_tasks_from_content (path : List String) (content : List Char) : List Task :=
  (numberedLines content).filterMap fun p =>
    if is_markdown_task_line p.2 then some ⟨path, p.1, rstripNl p.2⟩ else none

/-- `tasks.extract_tasks_from_file` (the read is forgiving, so decoding never
raises; a decode error only substitutes replacement characters). -/
def extract_tasks_from_file (fs : FS) (path : List String) : List Task :=
  extract_tasks_from_content path (readFile fs path)

/-- `tasks.iter_markdown_files`: a single `.md` file (extension compared
case-insensitively) yields itself; a missing root yields nothing; a directory
yields all `*.md` files below it (case-sensitive glob), sorted. -/
def iter_markdown_files (fs : FS) (root : List String) : List (List String) :=
  if isFile fs root && pyLower (pySuffix (lastName root)) = ".md".data then [root]
  else if !(isFile fs root || isDir fs root) then []
  else if isDir fs root then
    sortPaths (List.filterMap
      (fun f => if underDir root f.path && globMd (lastName f.path) then some f.path else none) fs)
  else []

/-- `tasks.extract_tasks`: concatenate per-file extraction over the walker. -/
def extract_tasks (fs : FS) (root : List String) : List Task :=
  (iter_markdown_files fs root).flatMap (extract_tasks_from_file fs)

/-- `tasks.find_notes_by_name`: all `*.md` files in the vault whose stem is
the stripped name, sorted; empty for a missing/non-directory vault or an
empty name. -/
def find_notes_by_name (fs : FS) (vault_root : List String) (note_name : String) : List (List String) :=
  if !isDir fs vault_root then []
  else
    let wanted := pyStrip note_name.data
    if wanted.isEmpty then []
    else
      sortPaths (List.filterMap
        (fun f =>
          if underDir vault_root f.path && globMd (lastName f.path) &&
              pyStem (lastName f.path) = wanted then some f.path else none) fs)

/-- `tasks.resolve_note_path`: the first stem match in sorted order, else a
fresh `<name>.md` at the vault root; an empty name is a `ValueError`
(modelled as `none`). -/
def resolve_note_path (fs : FS) (vault_root : List String) (note_name : String) : Option (List String) :=
  let wanted := pyStrip note_name.data
  if wanted.isEmpty then none
  else
    match find_notes_by_name fs vault_root note_name with
    | p :: _ => some p
    | [] => some (vault_root ++ [⟨wanted⟩ ++ ".md"])

/-- Writing a file: replace the content at `p`, or add the file. -/
def writeFile (fs : FS) (p : List String) (c : List Char) : FS :=
  if List.any fs (fun f => f.path = p) then
    List.map (fun f => if f.path = p then ⟨p, c⟩ else f) fs
  else fs ++ [⟨p, c⟩]

/-- The full content written back by `append_task_to_note`: the existing
content, a separating newline exactly when the existing content is non-empty
and does not already end in one, the task line, and a trailing newline. -/
def appendedContent (existing task_line : List Char) : List Char :=
  (if !existing.isEmpty && existing.getLast? ≠ some '\n'
    then existing ++ ['\n'] else existing) ++ task_line ++ ['\n']

/-- `tasks.append_task_to_note`: resolve the note path, normalise the text to
a task line, read the existing content (missing file reads as empty), and
write back the existing content with the new line appended.  Returns the
updated filesystem and the path written; a `ValueError` (empty name or text)
is `none`. -/
def append_task_to_note (fs : FS) (vault_root : List String) (note_name : String)
    (text : String) : Option (FS × List String) :=
  match resolve_note_path fs vault_root note_name with
  | none => none
  | some note_path =>
    match normalize_task_text text.data with
    | none => none
    | some task_line =>
      some (writeFile fs note_path (appendedContent (readFile fs note_path) task_line),
        note_path)

/-- `tasks.filter_tasks_by_statuses`: `None` is a passthrough; otherwise keep
tasks whose status is in the wanted set (falsy entries dropped from the set;
an empty set keeps nothing). -/
def filter_tasks_by_statuses (tasks : List Task) (statuses : Option (List String)) : List Task :=
  match statuses with
  | none => tasks
  | some ss =>
    let wanted := ss.filter (fun s => s ≠ "")
    if wanted.isEmpty then []
    else tasks.filter fun t =>
      match task_status_from_line t.raw with
      | some st => wanted.contains st
      | none => false

/-- `tasks.filter_tasks_by_priority`. -/
def filter_tasks_by_priority (tasks : List Task) (priority_only : Bool) : List Task :=
  if !priority_only then tasks
  else tasks.filter fun t => is_priority_task_line t.raw

/-- Keep-first deduplication by a key, as the `seen`-set loops of the
source. -/
def dedupByAux {α κ : Type} [DecidableEq κ] (key : α → κ) (seen : List κ) : List α → List α
  | [] => []
  | a :: as =>
    if seen.contains (key a) then dedupByAux key seen as
    else a :: dedupByAux key (key a :: seen) as

/-- Keep-first deduplication by a key. -/
def dedupBy {α κ : Type} [DecidableEq κ] (key : α → κ) (l : List α) : List α :=
  dedupByAux key [] l

/-- Left-pad a number with zeros to `w` digits (`strftime` `%Y`/`%m`/`%d`). -/
def padZeros (w n : Nat) : String :=
  let s := toString n
  ⟨List.replicate (w - s.length) '0' ++ s.data⟩

/-- `f"{d:%Y-%m-%d}.md"`. -/
def dailyFileName (d : Date) : String :=
  padZeros 4 d.year ++ "-" ++ padZeros 2 d.month ++ "-" ++ padZeros 2 d.day ++ ".md"

/-- Worker for `splitOnChar`; `acc` holds the current part reversed. -/
def splitOnCharAux (sep : Char) : List Char → List Char → List (List Char)
  | [], acc => [acc.reverse]
  | c :: rest, acc =>
    if c = sep then acc.reverse :: splitOnCharAux sep rest []
    else splitOnCharAux sep rest (c :: acc)

/-- Python `s.split(sep)` for a one-character separator. -/
def splitOnChar (sep : Char) (s : List Char) : List (List Char) :=
  splitOnCharAux sep s []

/-- A configured directory string joined onto the vault root (the `/`
operator of `pathlib` drops empty segments). -/
def joinDirString (vault_root : List String) (dir : String) : List String :=
  vault_root ++ ((splitOnChar '/' dir.data).map (fun l => (⟨l⟩ : String))).filter
    (fun seg => seg ≠ "")

/-- `tasks.resolve_calendar_daily_note_path`: `vault / calendar_dir /
"yyyy-mm-dd.md"` (the calendar directory defaults to the vault root when
empty/unset). -/
def resolve_calendar_daily_note_path (vault_root : List String) (calendar_dir : String)
    (for_date : Date) : List String :=
  joinDirString vault_root calendar_dir ++ [dailyFileName for_date]

/-- `tasks.extract_tasks_from_today_note`: tasks of the given date's daily
note, empty if the note does not exist. -/
def extract_tasks_from_today_note (fs : FS) (vault_root : List String) (calendar_dir : String)
    (for_date : Date) : List Task :=
  let note := resolve_calendar_daily_note_path vault_root calendar_dir for_date
  if !isFile fs note then [] else extract_tasks_from_file fs note

/-- Python `.strip("/")`: remove leading and trailing slashes, as used in
`iter_daily_notes` (`(calendar_dir or "").strip().strip("/")`). -/
def stripSlashes (s : List Char) : List Char :=
  ((s.dropWhile (· == '/')).reverse.dropWhile (· == '/')).reverse

/-- `tasks.iter_daily_notes`: `(date, path)` for every direct `*.md` child of
the calendar folder whose stem parses as `yyyy-mm-dd`, in sorted path
order. -/
def iter_daily_notes (fs : FS) (vault_root : List String) (calendar_dir : Option String) :
    List (Date × List String) :=
  let cal : List Char := stripSlashes (pyStrip (calendar_dir.getD "").data)
  let root := if cal.isEmpty then vault_root else joinDirString vault_root ⟨cal⟩
  if !isDir fs root then []
  else
    (sortPaths (List.filterMap
        (fun f => if f.path.length = root.length + 1 && List.isPrefixOf root f.path &&
            globMd (lastName f.path) then some f.path else none) fs)).filterMap
      fun p => (try_parse_ymd (pyStem (lastName p))).map (fun d => (d, p))

/-- `tasks.extract_tasks_from_past_daily_notes`: tasks of every daily note
whose date is strictly before `today`. -/
def extract_tasks_from_past_daily_notes (fs : FS) (vault_root : List String)
    (calendar_dir : Option String) (today : Date) : List Task :=
  ((iter_daily_notes fs vault_root calendar_dir).filter
      (fun dp => dateLt dp.1 today)).flatMap
    fun dp => extract_tasks_from_file fs dp.2

/-- The per-line condition of `extract_tasks_with_past_date_backlinks`: a task
line with at least one `[[yyyy-mm-dd]]` wikilink to a valid date strictly
before `today`. -/
def pastDateLine (today : Date) (l : List Char) : Bool :=
  is_markdown_task_line l &&
    (let links := findall_date_wikilinks l
     !links.isEmpty &&
     links.any (fun link =>
       match try_parse_ymd link with
       | some d => dateLt d today
       | none => false))

/-- The candidate task lines of `tasks.extract_tasks_with_past_date_backlinks`
before the `seen`-set dedup. -/
def pastBacklinkCandidates (fs : FS) (vault_root : List String) (today : Date) : List Task :=
  (iter_markdown_files fs vault_root).flatMap fun md =>
    (numberedLines (readFile fs md)).filterMap fun p =>
      if pastDateLine today p.2 then some ⟨md, p.1, rstripNl p.2⟩ else none

/-- `tasks.extract_tasks_with_past_date_backlinks`. -/
def extract_tasks_with_past_date_backlinks (fs : FS) (vault_root : List String)
    (today : Date) : List Task :=
  dedupBy (fun t => (t.file, t.line_no)) (pastBacklinkCandidates fs vault_root today)

/-- `tasks.extract_overdue_tasks`: past daily notes, then past-dated
backlinks, deduplicated by `(file, line_no)`. -/
def extract_overdue_tasks (fs : FS) (vault_root : List String) (calendar_dir : Option String)
    (today : Date) : List Task :=
  dedupBy (fun t => (t.file, t.line_no))
    (extract_tasks_from_past_daily_notes fs vault_root calendar_dir today ++
      extract_tasks_with_past_date_backlinks fs vault_root today)

/-- Python `needle in line` on strings: `needle` occurs contiguously in
`hay`. -/
def containsSub (needle hay : List Char) : Bool :=
  hay.tails.any (List.isPrefixOf needle)

/-- `tasks.extract_backlinked_tasks`: task lines in the vault containing the
literal `[[<stem>]]`, optionally excluding the note's own lines, deduplicated
by `(file, line_no)`. `Path.resolve` is the identity in the model. -/
def extract_backlinked_tasks (fs : FS) (vault_root : List String) (note_path : List String)
    (include_note_tasks : Bool) : List Task :=
  let needle := "[[".data ++ pyStem (lastName note_path) ++ "]]".data
  dedupBy (fun t => (t.file, t.line_no))
    (((iter_markdown_files fs vault_root).filter
        (fun md => include_note_tasks || md ≠ note_path)).flatMap fun md =>
      (numberedLines (readFile fs md)).filterMap fun p =>
        if containsSub needle p.2 && is_markdown_task_line p.2 then
          some ⟨md, p.1, rstripNl p.2⟩
        else none)

/-- `tasks.extract_tasks_from_note_name`: concatenated tasks of every stem
match. -/
def extract_tasks_from_note_name (fs : FS) (vault_root : List String) (note_name : String) :
    List Task :=
  (find_notes_by_name fs vault_root note_name).flatMap (extract_tasks_from_file fs)

/-- `cli._parse_statuses`: split a comma-separated option on `","`, strip each
part, drop empties; `None` stays `None`. -/
def parse_statuses (raw : Option String) : Option (List String) :=
  match raw with
  | none => none
  | some r =>
    some (((splitOnChar ',' r.data).map (fun l => pyStripS ⟨l⟩)).filter (fun p => p ≠ ""))

/-- The `sorted(..., key=lambda t: (str(t.file), t.line_no))` order of
`cli._cmd_overdue`: Python tuple comparison of the joined path string and the
line number. -/
def taskKeyLeB (t u : Task) : Bool :=
  if pathChars t.file = pathChars u.file then t.line_no ≤ u.line_no
  else charListLe (pathChars t.file) (pathChars u.file)

/-- `sorted(tasks, key=lambda t: (str(t.file), t.line_no))`. -/
def sortTasksByPathLine (l : List Task) : List Task := sortLe taskKeyLeB l

/-- `cli._cmd_day_offset` up to its task list (before presentation): the
target date's daily-note tasks, plus vault-wide backlinks to that note
excluding the note itself, deduplicated on `(str(file), line_no)`, then the
status and priority filters. -/
def cmd_day_tasks (fs : FS) (vault_root : List String) (calendar_dir : String) (target : Date)
    (statusRaw : Option String) (priority_only : Bool) : List Task :=
  let note := resolve_calendar_daily_note_path vault_root calendar_dir target
  let t1 := extract_tasks_from_today_note fs vault_root calendar_dir target
  let t2 := extract_backlinked_tasks fs vault_root note false
  let tasks := dedupBy (fun t => (pathString t.file, t.line_no)) (t1 ++ t2)
  let tasks := filter_tasks_by_statuses tasks (parse_statuses statusRaw)
  filter_tasks_by_priority tasks priority_only

/-- `cli._cmd_overdue` up to its task list: the overdue extraction, the status
filter (defaulting to `["open"]` when no `--status` was given), the priority
filter, then the final sort by `(str(file), line_no)`. -/
def cmd_overdue_tasks (fs : FS) (vault_root : List String) (calendar_dir : Option String)
    (today : Date) (statusRaw : Option String) (priority_only : Bool) : List Task :=
  let tasks := extract_overdue_tasks fs vault_root calendar_dir today
  let statuses := match statusRaw with
    | some r => parse_statuses (some r)
    | none => some ["open"]
  let tasks := filter_tasks_by_statuses tasks statuses
  let tasks := filter_tasks_by_priority tasks priority_only
  sortTasksByPathLine tasks

/-- `cli._cmd_note` up to its task list: an empty (stripped) name or a
name with no stem match in the vault is a usage error (exit code 2,
modelled as `Except.error` with the message written to stderr); otherwise
the concatenated tasks of every match, filtered. -/
def cmd_note_result (fs : FS) (vault_root : List String) (name : String)
    (statusRaw : Option String) (priority_only : Bool) : Except String (List Task) :=
  let note_name := pyStripS name
  if note_name = "" then .error "note name is required"
  else
    match find_notes_by_name fs vault_root note_name with
    | [] => .error "no note found"
    | matches0 =>
      let tasks := matches0.flatMap (extract_tasks_from_file fs)
      let tasks := filter_tasks_by_statuses tasks (parse_statuses statusRaw)
      .ok (filter_tasks_by_priority tasks priority_only)

/-! ## Structural lemmas about the line classifier -/

/-- A line is a task line exactly when, after stripping leading whitespace, it
reads bullet, space, `[`, one status character, `]`, and a non-empty
remainder. -/
theorem taskLine_shape_iff (line : List Char) :
    is_markdown_task_line line = true ↔
      ∃ b c rest, pyLstrip line = b :: ' ' :: '[' :: c :: ']' :: rest ∧
        (b = '-' ∨ b = '*') ∧ rest ≠ [] := by
  rcases hs : pyLstrip line with _ | ⟨c0, _ | ⟨c1, _ | ⟨c2, _ | ⟨c3, _ | ⟨c4, _ | ⟨c5, t⟩⟩⟩⟩⟩⟩ <;>
    simp [is_markdown_task_line, hs, List.isPrefixOf]
  all_goals try (intros; assumption)
  constructor
  · rintro ⟨hpre, ⟨hb, h2, h3⟩, h4⟩
    exact ⟨c0, c3, c5 :: t, ⟨rfl, h2, h3, rfl, h4, rfl⟩, hb, by simp⟩
  · rintro ⟨b, c, rest, ⟨hb0, h1, h2, h3, h4, hrest⟩, hbul, hne⟩
    subst hb0; subst h1; subst h2; subst h4
    refine ⟨?_, ⟨hbul, rfl, rfl⟩, rfl⟩
    rcases hbul with rfl | rfl
    · exact Or.inl ⟨rfl, rfl, rfl⟩
    · exact Or.inr ⟨rfl, rfl, rfl⟩

/-- `Char.ofNat` on a small code point recovers the code point. -/
theorem toNat_ofNat_small (n : Nat) (h : n < 55296) : (Char.ofNat n).toNat = n := by
  rw [Char.ofNat, dif_pos (Or.inl h)]
  simp [Char.ofNatAux, Char.toNat, UInt32.toNat, BitVec.toNat_ofNatLt]

/-- Only `'x'` and `'X'` lowercase to `'x'`. -/
theorem pyCharLower_eq_x (c : Char) : pyCharLower c = 'x' ↔ c = 'x' ∨ c = 'X' := by
  unfold pyCharLower
  by_cases h : 65 ≤ c.toNat ∧ c.toNat ≤ 90
  · rw [if_pos h]
    constructor
    · intro he
      have h1 : (Char.ofNat (c.toNat + 32)).toNat = 'x'.toNat := by rw [he]
      rw [toNat_ofNat_small _ (by omega)] at h1
      have hx : ('x'.toNat : Nat) = 120 := by decide
      have h88 : c.toNat = 88 := by omega
      have := congrArg Char.ofNat h88
      rw [Char.ofNat_toNat] at this
      exact Or.inr (this.trans (by decide))
    · rintro (rfl | rfl)
      · exact absurd h (by decide)
      · decide
  · rw [if_neg h]
    constructor
    · exact fun he => Or.inl he
    · rintro (rfl | rfl)
      · rfl
      · exact absurd (by decide) h

/-- On a task line of the given shape, `task_status_from_line` maps the status
character as in the status table (case-insensitive for done only). -/
theorem status_of_shape (line : List Char) (b c : Char) (rest : List Char)
    (hs : pyLstrip line = b :: ' ' :: '[' :: c :: ']' :: rest)
    (hb : b = '-' ∨ b = '*') (hne : rest ≠ []) :
    task_status_from_line line =
      if c = ' ' then some "open"
      else if c = 'x' ∨ c = 'X' then some "done"
      else if c = '-' then some "cancelled"
      else if c = '>' then some "scheduled"
      else none := by
  have htask : is_markdown_task_line line = true :=
    (taskLine_shape_iff line).2 ⟨b, c, rest, hs, hb, hne⟩
  have hlowBra : pyCharLower '[' = '[' := by decide
  have hlowKet : pyCharLower ']' = ']' := by decide
  unfold task_status_from_line
  simp [htask, hs, pyLower, hlowBra, hlowKet, pyCharLower_eq_x]

/-- A non-task line has no status. -/
theorem status_of_nontask (l : List Char) (ht : is_markdown_task_line l = false) :
    task_status_from_line l = none := by
  unfold task_status_from_line
  simp [ht]

/-- Any status returned by `task_status_from_line` is one of the four named
statuses. -/
theorem status_mem (l : List Char) (st : String) (h : task_status_from_line l = some st) :
    st = "open" ∨ st = "done" ∨ st = "cancelled" ∨ st = "scheduled" := by
  by_cases ht : is_markdown_task_line l = true
  · obtain ⟨b, c, rest, hs, hb, hne⟩ := (taskLine_shape_iff l).1 ht
    rw [status_of_shape l b c rest hs hb hne] at h
    split_ifs at h <;> simp_all
  · rw [status_of_nontask l (by simpa using ht)] at h
    exact absurd h (by simp)

/-! ## Deduplication lemmas -/

theorem mem_of_mem_dedupByAux {α κ : Type} [DecidableEq κ] (key : α → κ)
    (seen : List κ) (l : List α) (a : α) (h : a ∈ dedupByAux key seen l) : a ∈ l := by
  induction l generalizing seen with
  | nil => simpa [dedupByAux] using h
  | cons b bs ih =>
    rw [dedupByAux] at h
    split_ifs at h with hb
    · exact List.mem_cons_of_mem _ (ih _ h)
    · rcases List.mem_cons.1 h with rfl | h2
      · exact List.mem_cons_self _ _
      · exact List.mem_cons_of_mem _ (ih _ h2)

theorem mem_dedupByAux_of_mem {α κ : Type} [DecidableEq κ] (key : α → κ) :
    ∀ (l : List α) (seen : List κ) (a : α), a ∈ l → key a ∉ seen →
      (∀ x ∈ l, ∀ y ∈ l, key x = key y → x = y) →
      a ∈ dedupByAux key seen l := by
  intro l
  induction l with
  | nil => intro seen a ha; cases ha
  | cons b bs ih =>
    intro seen a ha hs inj
    rw [dedupByAux]
    rcases List.mem_cons.1 ha with rfl | ha2
    · rw [if_neg (by simpa using hs)]
      exact List.mem_cons_self _ _
    · by_cases hb : List.contains seen (key b)
      · rw [if_pos hb]
        exact ih _ _ ha2 hs fun x hx y hy =>
          inj x (List.mem_cons_of_mem _ hx) y (List.mem_cons_of_mem _ hy)
      · rw [if_neg hb]
        by_cases hab : a = b
        · subst hab; exact List.mem_cons_self _ _
        · refine List.mem_cons_of_mem _ (ih _ _ ha2 ?_ fun x hx y hy =>
            inj x (List.mem_cons_of_mem _ hx) y (List.mem_cons_of_mem _ hy))
          intro hmem
          rcases List.mem_cons.1 hmem with hk | hk
          · exact hab (inj a ha b (List.mem_cons_self _ _) hk)
          · exact hs hk

/-- Membership in a keep-first dedup, when equal keys only occur on equal
elements. -/
theorem mem_dedupBy_iff {α κ : Type} [DecidableEq κ] (key : α → κ) (l : List α) (a : α)
    (inj : ∀ x ∈ l, ∀ y ∈ l, key x = key y → x = y) :
    a ∈ dedupBy key l ↔ a ∈ l := by
  constructor
  · exact mem_of_mem_dedupByAux key [] l a
  · intro ha
    exact mem_dedupByAux_of_mem key l [] a ha (by simp) inj

theorem dedupByAux_key_not_seen {α κ : Type} [DecidableEq κ] (key : α → κ)
    (seen : List κ) (l : List α) (a : α) (h : a ∈ dedupByAux key seen l) :
    key a ∉ seen := by
  induction l generalizing seen with
  | nil => simp [dedupByAux] at h
  | cons b bs ih =>
    rw [dedupByAux] at h
    split_ifs at h with hb
    · exact ih _ h
    · rcases List.mem_cons.1 h with rfl | h2
      · simpa using hb
      · intro hk
        exact ih _ h2 (List.mem_cons_of_mem _ hk)

/-- A keep-first dedup never keeps two elements with the same key. -/
theorem pairwise_dedupByAux {α κ : Type} [DecidableEq κ] (key : α → κ)
    (seen : List κ) (l : List α) :
    (dedupByAux key seen l).Pairwise (fun x y => key x ≠ key y) := by
  induction l generalizing seen with
  | nil => simp [dedupByAux]
  | cons b bs ih =>
    rw [dedupByAux]
    split_ifs with hb
    · exact ih _
    · refine List.Pairwise.cons (fun y hy => ?_) (ih _)
      have := dedupByAux_key_not_seen key _ _ y hy
      intro hk
      exact this (by simp [← hk])

/-- A keep-first dedup never keeps two elements with the same key. -/
theorem pairwise_dedupBy {α κ : Type} [DecidableEq κ] (key : α → κ) (l : List α) :
    (dedupBy key l).Pairwise (fun x y => key x ≠ key y) :=
  pairwise_dedupByAux key [] l

/-! ## Extraction lemmas -/

set_option maxHeartbeats 2000000 in
/-- Lines produced by `pySplitlinesAux` contain no line-boundary character. -/
theorem splitlinesAux_no_boundary : ∀ (s acc : List Char),
    (∀ c ∈ acc, isLineBoundary c = false) →
    ∀ l ∈ pySplitlinesAux s acc, ∀ c ∈ l, isLineBoundary c = false := by
  intro s acc
  induction s, acc using pySplitlinesAux.induct with
  | case1 acc hemp =>
    intro _ l hl
    rw [pySplitlinesAux, if_pos hemp] at hl
    cases hl
  | case2 acc hemp =>
    intro hacc l hl c hc
    rw [pySplitlinesAux, if_neg hemp] at hl
    rcases List.mem_singleton.1 hl with rfl
    exact hacc c (List.mem_reverse.1 hc)
  | case3 rest acc ih =>
    intro hacc l hl c hc
    rw [pySplitlinesAux] at hl
    rcases List.mem_cons.1 hl with rfl | h2
    · exact hacc c (List.mem_reverse.1 hc)
    · exact ih (by simp) l h2 c hc
  | case4 d rest acc hpat hd ih =>
    intro hacc l hl c hc
    have heq : pySplitlinesAux (d :: rest) acc = acc.reverse :: pySplitlinesAux rest [] := by
      rw [pySplitlinesAux]
      · rw [if_pos hd]
      · exact hpat
    rw [heq] at hl
    rcases List.mem_cons.1 hl with rfl | h2
    · exact hacc c (List.mem_reverse.1 hc)
    · exact ih (by simp) l h2 c hc
  | case5 d rest acc hpat hd ih =>
    intro hacc l hl c hc
    have heq : pySplitlinesAux (d :: rest) acc = pySplitlinesAux rest (d :: acc) := by
      rw [pySplitlinesAux]
      · rw [if_neg hd]
      · exact hpat
    rw [heq] at hl
    refine ih ?_ l hl c hc
    intro e he
    rcases List.mem_cons.1 he with rfl | h3
    · simpa using hd
    · exact hacc e h3

/-- Lines produced by `pySplitlines` contain no newline character. -/
theorem splitlines_no_newline (content : List Char) (l : List Char)
    (hl : l ∈ pySplitlines content) : ∀ c ∈ l, c ≠ '\n' := by
  intro c hc hne
  have := splitlinesAux_no_boundary content [] (by simp) l hl c hc
  subst hne
  simp [isLineBoundary] at this

/-! ## Order and sorting lemmas -/

theorem charListLe_total : ∀ (a b : List Char), charListLe a b = true ∨ charListLe b a = true := by
  intro a
  induction a with
  | nil => intro b; left; simp [charListLe]
  | cons x as ih =>
    intro b
    cases b with
    | nil => right; simp [charListLe]
    | cons y bs =>
      rw [charListLe, charListLe]
      rcases lt_trichotomy x y with h | h | h
      · left; rw [if_pos h]
      · subst h
        rw [if_neg (lt_irrefl x), if_pos rfl, if_neg (lt_irrefl x), if_pos rfl]
        exact ih bs
      · right; rw [if_pos h]

theorem charListLe_trans : ∀ (a b c : List Char), charListLe a b = true →
    charListLe b c = true → charListLe a c = true := by
  intro a
  induction a with
  | nil => intro b c _ _; simp [charListLe]
  | cons x as ih =>
    intro b c hab hbc
    cases b with
    | nil => simp [charListLe] at hab
    | cons y bs =>
      cases c with
      | nil => simp [charListLe] at hbc
      | cons z cs =>
        rw [charListLe] at hab hbc ⊢
        by_cases h1 : x < y
        · by_cases h2 : y < z
          · rw [if_pos (h1.trans h2)]
          · rw [if_neg h2] at hbc
            by_cases h3 : y = z
            · subst h3; rw [if_pos h1]
            · rw [if_neg h3] at hbc; cases hbc
        · rw [if_neg h1] at hab
          by_cases h4 : x = y
          · subst h4
            rw [if_pos rfl] at hab
            by_cases h2 : x < z
            · rw [if_pos h2]
            · rw [if_neg h2] at hbc ⊢
              by_cases h3 : x = z
              · rw [if_pos h3] at hbc ⊢
                exact ih bs cs hab hbc
              · rw [if_neg h3] at hbc; cases hbc
          · rw [if_neg h4] at hab; cases hab

theorem charListLe_antisymm : ∀ (a b : List Char), charListLe a b = true →
    charListLe b a = true → a = b := by
  intro a
  induction a with
  | nil =>
    intro b _ hba
    cases b with
    | nil => rfl
    | cons y bs => simp [charListLe] at hba
  | cons x as ih =>
    intro b hab hba
    cases b with
    | nil => simp [charListLe] at hab
    | cons y bs =>
      rw [charListLe] at hab hba
      by_cases h1 : x < y
      · rw [if_neg (lt_asymm h1), if_neg (fun he : y = x => lt_irrefl x (he ▸ h1))] at hba
        cases hba
      · rw [if_neg h1] at hab
        by_cases h2 : x = y
        · subst h2
          rw [if_pos rfl] at hab
          rw [if_neg h1, if_pos rfl] at hba
          rw [ih bs hab hba]
        · rw [if_neg h2] at hab; cases hab

theorem perm_insertLe {α : Type} (le : α → α → Bool) (a : α) :
    ∀ (l : List α), List.Perm (insertLe le a l) (a :: l) := by
  intro l
  induction l with
  | nil => exact List.Perm.refl _
  | cons b bs ih =>
    rw [insertLe]
    split_ifs
    · exact List.Perm.refl _
    · exact (ih.cons b).trans (List.Perm.swap a b bs)

theorem perm_sortLe {α : Type} (le : α → α → Bool) :
    ∀ (l : List α), List.Perm (sortLe le l) l := by
  intro l
  induction l with
  | nil => exact List.Perm.refl _
  | cons a as ih =>
    rw [sortLe]
    exact (perm_insertLe le a (sortLe le as)).trans (ih.cons a)

theorem mem_sortLe {α : Type} (le : α → α → Bool) (l : List α) (x : α) :
    x ∈ sortLe le l ↔ x ∈ l :=
  (perm_sortLe le l).mem_iff

theorem mem_sortPaths (l : List (List String)) (p : List String) :
    p ∈ sortPaths l ↔ p ∈ l :=
  mem_sortLe pathLeB l p

theorem pairwise_insertLe {α : Type} (le : α → α → Bool)
    (htot : ∀ a b, le a b = true ∨ le b a = true)
    (htrans : ∀ a b c, le a b = true → le b c = true → le a c = true)
    (a : α) : ∀ (l : List α), l.Pairwise (fun x y => le x y = true) →
      (insertLe le a l).Pairwise (fun x y => le x y = true) := by
  intro l
  induction l with
  | nil => intro _; simp [insertLe]
  | cons b bs ih =>
    intro h
    rcases List.pairwise_cons.1 h with ⟨hb, hbs⟩
    rw [insertLe]
    split_ifs with hab
    · refine List.Pairwise.cons ?_ h
      intro y hy
      rcases List.mem_cons.1 hy with rfl | h3
      · exact hab
      · exact htrans a b y hab (hb y h3)
    · refine List.Pairwise.cons ?_ (ih hbs)
      intro y hy
      rcases List.mem_cons.1 ((perm_insertLe le a bs).mem_iff.1 hy) with hya | h3
      · subst hya
        exact (htot _ _).resolve_left hab
      · exact hb y h3

theorem pairwise_sortLe {α : Type} (le : α → α → Bool)
    (htot : ∀ a b, le a b = true ∨ le b a = true)
    (htrans : ∀ a b c, le a b = true → le b c = true → le a c = true) :
    ∀ (l : List α), (sortLe le l).Pairwise (fun x y => le x y = true) := by
  intro l
  induction l with
  | nil => simp [sortLe]
  | cons a as ih =>
    rw [sortLe]
    exact pairwise_insertLe le htot htrans a _ ih

theorem pathLeB_total (p q : List String) : pathLeB p q = true ∨ pathLeB q p = true :=
  charListLe_total _ _

theorem pathLeB_trans (p q r : List String) (h1 : pathLeB p q = true)
    (h2 : pathLeB q r = true) : pathLeB p r = true :=
  charListLe_trans _ _ _ h1 h2

theorem taskKeyLeB_total (t u : Task) : taskKeyLeB t u = true ∨ taskKeyLeB u t = true := by
  unfold taskKeyLeB
  by_cases h : pathChars t.file = pathChars u.file
  · rw [if_pos h, if_pos h.symm]
    rcases Nat.le_total t.line_no u.line_no with h2 | h2
    · left; simpa using h2
    · right; simpa using h2
  · rw [if_neg h, if_neg (fun he => h he.symm)]
    exact charListLe_total _ _

theorem taskKeyLeB_trans (t u v : Task) (h1 : taskKeyLeB t u = true)
    (h2 : taskKeyLeB u v = true) : taskKeyLeB t v = true := by
  unfold taskKeyLeB at *
  by_cases e1 : pathChars t.file = pathChars u.file
  · rw [if_pos e1] at h1
    by_cases e2 : pathChars u.file = pathChars v.file
    · rw [if_pos e2] at h2
      rw [if_pos (e1.trans e2)]
      simp only [decide_eq_true_eq] at *
      omega
    · rw [if_neg e2] at h2
      rw [if_neg (fun he => e2 (e1.symm.trans he)), e1]
      exact h2
  · rw [if_neg e1] at h1
    by_cases e2 : pathChars u.file = pathChars v.file
    · rw [if_neg (fun he => e1 (he.trans e2.symm)), ← e2]
      exact h1
    · rw [if_neg e2] at h2
      by_cases e3 : pathChars t.file = pathChars v.file
      · exact absurd (charListLe_antisymm _ _ h1 (e3 ▸ h2)) e1
      · rw [if_neg e3]
        exact charListLe_trans _ _ _ h1 h2

/-! ## Filter lemmas -/

theorem filter_statuses_none (tasks : List Task) :
    filter_tasks_by_statuses tasks none = tasks := rfl

theorem filter_priority_false (tasks : List Task) :
    filter_tasks_by_priority tasks false = tasks := rfl

/-- Stripping trailing newlines from a newline-free list is the identity. -/
theorem rstripNl_eq_self (l : List Char) (h : ∀ c ∈ l, c ≠ '\n') : rstripNl l = l := by
  unfold rstripNl
  have : l.reverse.dropWhile (· == '\n') = l.reverse := by
    cases hrev : l.reverse with
    | nil => rfl
    | cons c cs =>
      rw [List.dropWhile_cons]
      have hc : c ∈ l := by
        rw [← List.mem_reverse, hrev]
        exact List.mem_cons_self _ _
      rw [if_neg (by simpa using h c hc)]
  rw [this, List.reverse_reverse]

/-- Membership characterisation of per-file task extraction. -/
theorem mem_extract_content (path : List String) (content : List Char) (t : Task) :
    t ∈ extract_tasks_from_content path content ↔
      ∃ i l, (pySplitlines content)[i]? = some l ∧ is_markdown_task_line l = true ∧
        t = ⟨path, i + 1, rstripNl l⟩ := by
  unfold extract_tasks_from_content numberedLines
  simp only [List.mem_filterMap, List.mem_map, Option.ite_none_right_eq_some, Option.some.injEq]
  constructor
  · rintro ⟨⟨n, l⟩, ⟨⟨⟨i, l2⟩, hmem, heq⟩, htask, ht⟩⟩
    obtain ⟨rfl, rfl⟩ : i + 1 = n ∧ l2 = l := by
      simpa using heq
    exact ⟨i, _, List.mk_mem_enum_iff_getElem?.1 hmem, htask, ht.symm⟩
  · rintro ⟨i, l, hget, htask, ht⟩
    exact ⟨(i + 1, l), ⟨⟨(i, l), List.mk_mem_enum_iff_getElem?.2 hget, rfl⟩, htask, ht.symm⟩⟩

/-- Every task produced by per-file extraction carries a consistent
`(file, line_no, raw)` triple: the raw text is the stripped line found at
`line_no` in the content. -/
theorem extract_content_consistent (path : List String) (content : List Char) (t : Task)
    (h : t ∈ extract_tasks_from_content path content) :
    t.file = path ∧ ∃ l, (pySplitlines content)[t.line_no - 1]? = some l ∧
      t.raw = rstripNl l := by
  obtain ⟨i, l, hget, _, rfl⟩ := (mem_extract_content path content t).1 h
  exact ⟨rfl, l, by simpa using hget, rfl⟩

/-- A task record is consistent with the filesystem: its raw text is the
(newline-stripped) line found at its line number in its file. -/
def taskConsistent (fs : FS) (t : Task) : Prop :=
  ∃ l, (pySplitlines (readFile fs t.file))[t.line_no - 1]? = some l ∧ t.raw = rstripNl l

/-- Generic membership characterisation for the per-line scans of the
source (extraction, backlink scan, overdue scan): all of them keep the lines
satisfying some boolean condition and record `(path, index + 1, stripped)`. -/
theorem mem_scan_lines (path : List String) (content : List Char) (cond : List Char → Bool)
    (t : Task) :
    t ∈ (numberedLines content).filterMap
        (fun p => if cond p.2 then some (⟨path, p.1, rstripNl p.2⟩ : Task) else none) ↔
      ∃ i l, (pySplitlines content)[i]? = some l ∧ cond l = true ∧
        t = ⟨path, i + 1, rstripNl l⟩ := by
  unfold numberedLines
  simp only [List.mem_filterMap, List.mem_map, Option.ite_none_right_eq_some, Option.some.injEq]
  constructor
  · rintro ⟨⟨n, l⟩, ⟨⟨⟨i, l2⟩, hmem, heq⟩, htask, ht⟩⟩
    obtain ⟨rfl, rfl⟩ : i + 1 = n ∧ l2 = l := by
      simpa using heq
    exact ⟨i, _, List.mk_mem_enum_iff_getElem?.1 hmem, htask, ht.symm⟩
  · rintro ⟨i, l, hget, htask, ht⟩
    exact ⟨(i + 1, l), ⟨⟨(i, l), List.mk_mem_enum_iff_getElem?.2 hget, rfl⟩, htask, ht.symm⟩⟩

/-- Tasks extracted from a file are consistent with the filesystem. -/
theorem consistent_of_extract_file (fs : FS) (p : List String) (t : Task)
    (h : t ∈ extract_tasks_from_file fs p) : taskConsistent fs t := by
  obtain ⟨hf, l, hget, hraw⟩ := extract_content_consistent p (readFile fs p) t h
  exact ⟨l, by rw [hf]; exact hget, hraw⟩

/-- Two consistent tasks with the same file and line number are equal. -/
theorem consistent_inj (fs : FS) (t u : Task) (ht : taskConsistent fs t)
    (hu : taskConsistent fs u) (hf : t.file = u.file) (hn : t.line_no = u.line_no) :
    t = u := by
  obtain ⟨l1, hg1, hr1⟩ := ht
  obtain ⟨l2, hg2, hr2⟩ := hu
  rw [hf, hn] at hg1
  rw [hg1] at hg2
  obtain rfl : l1 = l2 := Option.some.inj hg2
  cases t; cases u
  simp_all

/-- Tasks of the past-daily-notes pool are consistent. -/
theorem consistent_pastDaily (fs : FS) (v : List String) (cal : Option String) (d : Date)
    (t : Task) (h : t ∈ extract_tasks_from_past_daily_notes fs v cal d) :
    taskConsistent fs t := by
  unfold extract_tasks_from_past_daily_notes at h
  rw [List.mem_flatMap] at h
  obtain ⟨dp, _, hmem⟩ := h
  exact consistent_of_extract_file fs dp.2 t hmem

/-- Tasks of the past-date-backlink candidate pool are consistent. -/
theorem consistent_backCand (fs : FS) (v : List String) (d : Date) (t : Task)
    (h : t ∈ pastBacklinkCandidates fs v d) : taskConsistent fs t := by
  unfold pastBacklinkCandidates at h
  rw [List.mem_flatMap] at h
  obtain ⟨md, _, hmem⟩ := h
  obtain ⟨i, l, hget, _, rfl⟩ := (mem_scan_lines md (readFile fs md) _ t).1 hmem
  exact ⟨l, by simpa using hget, rfl⟩

/-- Tasks of the past-date-backlink pool are consistent. -/
theorem consistent_pastBacklinks (fs : FS) (v : List String) (d : Date) (t : Task)
    (h : t ∈ extract_tasks_with_past_date_backlinks fs v d) : taskConsistent fs t :=
  consistent_backCand fs v d t (mem_of_mem_dedupByAux _ _ _ _ h)

/-- Writing then reading the same path gives back the written content. -/
theorem fileAt_writeFile (fs : FS) (p : List String) (c : List Char) :
    fileAt (writeFile fs p c) p = some c := by
  unfold writeFile fileAt
  by_cases h : List.any fs (fun f => f.path = p)
  · rw [if_pos h]
    induction fs with
    | nil => simp at h
    | cons f fsx ih =>
      by_cases hf : f.path = p
      · simp [List.find?_cons, hf]
      · rw [List.map_cons, if_neg hf]
        simp only [List.find?_cons, decide_eq_false hf]
        exact ih (by simpa [List.any_cons, hf] using h)
  · rw [if_neg h]
    induction fs with
    | nil => simp [List.find?_cons]
    | cons f fsx ih =>
      have hf : ¬f.path = p := by
        intro he
        exact h (by simp [List.any_cons, he])
      rw [List.cons_append]
      simp only [List.find?_cons, decide_eq_false hf]
      exact ih (by simpa [List.any_cons, hf] using h)

/-- The head of a non-empty `dropWhile` result fails the predicate. -/
theorem dropWhile_head_false {α : Type} (p : α → Bool) : ∀ (l : List α) (a : α) (as : List α),
    List.dropWhile p l = a :: as → p a = false := by
  intro l
  induction l with
  | nil => intro a as h; simp at h
  | cons b bs ih =>
    intro a as h
    rw [List.dropWhile_cons] at h
    split_ifs at h with hb
    · exact ih a as h
    · cases h
      simpa using hb

theorem dropWhile_twice {α : Type} (p : α → Bool) (l : List α) :
    List.dropWhile p (List.dropWhile p l) = List.dropWhile p l := by
  cases h : List.dropWhile p l with
  | nil => rfl
  | cons a as =>
    have hpa := dropWhile_head_false p l a as h
    rw [List.dropWhile_cons, if_neg (by simp [hpa])]

/-- The left strip after a right strip of a left-stripped list is inert. -/
theorem lstrip_rstrip_lstrip (s : List Char) :
    pyLstrip (pyRstripWs (pyLstrip s)) = pyRstripWs (pyLstrip s) := by
  unfold pyLstrip pyRstripWs
  cases hr : (List.dropWhile isPySpace (List.dropWhile isPySpace s).reverse).reverse with
  | nil => rfl
  | cons a as =>
    have hsuf : List.dropWhile isPySpace (List.dropWhile isPySpace s).reverse <:+
        (List.dropWhile isPySpace s).reverse := List.dropWhile_suffix _
    have hpre : (a :: as) <+: List.dropWhile isPySpace s := by
      have h2 := List.reverse_prefix.2 hsuf
      rw [List.reverse_reverse] at h2
      rw [hr] at h2
      exact h2
    obtain ⟨t, ht⟩ := hpre
    have hshape : List.dropWhile isPySpace s = a :: (as ++ t) := by
      rw [← ht]; simp
    have hpa := dropWhile_head_false isPySpace s a (as ++ t) hshape
    rw [List.dropWhile_cons, if_neg (by simp [hpa])]

/-- Python `strip` is idempotent. -/
theorem pyStrip_idem (s : List Char) : pyStrip (pyStrip s) = pyStrip s := by
  unfold pyStrip
  rw [show pyLstrip (pyRstripWs (pyLstrip s)) = pyRstripWs (pyLstrip s) from
    lstrip_rstrip_lstrip s]
  unfold pyRstripWs
  rw [List.reverse_reverse, dropWhile_twice]

/-! ## Claim theorems -/

/-- **C1** (amended): `is_task_line(s)` is true iff `s`, after stripping
leading whitespace, begins with a bullet (`-` or `*`), one space, `[`, exactly
one status character, `]`, and — unlike the claim as stated — at least one
further character after the closing bracket (the source requires
`len(s) >= 6`). -/
theorem c1_task_line_grammar (s : List Char) :
    is_markdown_task_line s = true ↔
      ∃ b c rest, pyLstrip s = b :: ' ' :: '[' :: c :: ']' :: rest ∧
        (b = '-' ∨ b = '*') ∧ rest ≠ [] :=
  taskLine_shape_iff s

/-- **C1** counterexample: the bare line `"- [x]"` consists of exactly bullet,
space, `[`, status character, `]` after stripping — the claim says it is a
task line — yet `is_markdown_task_line` rejects it (and the repository's own
test asserts `not is_markdown_task_line("- [ ]")`). -/
theorem c1_counterexample :
    is_markdown_task_line "- [x]".data = false ∧
      pyLstrip "- [x]".data = ['-', ' ', '[', 'x', ']'] := by
  constructor <;> decide

/-- **C4**: `status_of` returns the no-status result on a non-task line, and
on a task line maps the single status character: space to open, `x`/`X` to
done (the only case-insensitive status), `-` to cancelled, `>` to scheduled,
anything else to the unrecognised sentinel (which the source represents by
`None` as well).  The function is total by construction. -/
theorem c4_status_mapping (line : List Char) :
    (is_markdown_task_line line = false → task_status_from_line line = none) ∧
    (∀ b c rest, pyLstrip line = b :: ' ' :: '[' :: c :: ']' :: rest →
      (b = '-' ∨ b = '*') → rest ≠ [] →
      task_status_from_line line =
        if c = ' ' then some "open"
        else if c = 'x' ∨ c = 'X' then some "done"
        else if c = '-' then some "cancelled"
        else if c = '>' then some "scheduled"
        else none) :=
  ⟨status_of_nontask line, fun b c rest hs hb hne => status_of_shape line b c rest hs hb hne⟩

/-- **C4** witness: the mapping theorem applied to a concrete unrecognised
token, a concrete done token, and a concrete non-task line. -/
theorem c4_witness :
    task_status_from_line "- [?] maybe".data = none ∧
      task_status_from_line "- [X] done".data = some "done" ∧
      task_status_from_line "hello".data = none := by
  refine ⟨?_, ?_, (c4_status_mapping "hello".data).1 (by decide)⟩
  · have h := (c4_status_mapping "- [?] maybe".data).2 '-' '?' (' ' :: "maybe".data)
      (by decide) (by decide) (by decide)
    rw [h]; decide
  · have h := (c4_status_mapping "- [X] done".data).2 '-' 'X' (' ' :: "done".data)
      (by decide) (by decide) (by decide)
    rw [h]; decide

/-- **C5**: the multi-status filter passes everything through on `None`,
returns nothing on the empty set, and otherwise keeps exactly the tasks (in
order) whose status lies in the wanted set — tasks with an unrecognised or
absent status are dropped; the four-line scenario filtered by
`{done, cancelled}` returns exactly lines two and three in order. -/
theorem c5_filter_by_statuses (tasks : List Task) (ss : List String) :
    filter_tasks_by_statuses tasks none = tasks ∧
    filter_tasks_by_statuses tasks (some []) = [] ∧
    ((∃ s ∈ ss, s ≠ "") →
      filter_tasks_by_statuses tasks (some ss) = tasks.filter fun t =>
        match task_status_from_line t.raw with
        | some st => decide (st ∈ ss)
        | none => false) ∧
    filter_tasks_by_statuses
        [⟨["a.md"], 1, "- [ ] one".data⟩, ⟨["a.md"], 2, "- [x] two".data⟩,
          ⟨["a.md"], 3, "- [-] three".data⟩, ⟨["a.md"], 4, "- [>] four".data⟩]
        (some ["done", "cancelled"]) =
      [⟨["a.md"], 2, "- [x] two".data⟩, ⟨["a.md"], 3, "- [-] three".data⟩] := by
  refine ⟨rfl, rfl, ?_, by decide⟩
  rintro ⟨s0, hs0, hne0⟩
  have hmem : s0 ∈ ss.filter (fun s => s ≠ "") :=
    List.mem_filter.2 ⟨hs0, by simpa using hne0⟩
  have hw : (ss.filter (fun s => s ≠ "")).isEmpty = false := by
    rcases hfil : ss.filter (fun s => s ≠ "") with _ | ⟨x, xs⟩
    · rw [hfil] at hmem; cases hmem
    · rfl
  simp only [filter_tasks_by_statuses]
  rw [if_neg (by simp; exact ⟨s0, hs0, hne0⟩)]
  refine List.filter_congr ?_
  intro t _
  cases hst : task_status_from_line t.raw with
  | none => rfl
  | some st =>
    have hnames := status_mem t.raw st hst
    have hne : st ≠ "" := by rcases hnames with rfl | rfl | rfl | rfl <;> decide
    show (ss.filter (fun s => s ≠ "")).contains st = decide (st ∈ ss)
    simp only [List.contains, List.elem_eq_mem]
    rw [decide_eq_decide]
    constructor
    · intro h2
      exact (List.mem_filter.1 h2).1
    · intro h2
      exact List.mem_filter.2 ⟨h2, by simpa using hne⟩

/-- **C5** witness: the general filter equation applied to the four-line
scenario with the wanted set `{done, cancelled}`. -/
theorem c5_witness :
    filter_tasks_by_statuses
        [⟨["a.md"], 1, "- [ ] one".data⟩, ⟨["a.md"], 2, "- [x] two".data⟩,
          ⟨["a.md"], 3, "- [-] three".data⟩, ⟨["a.md"], 4, "- [>] four".data⟩]
        (some ["done", "cancelled"]) =
      List.filter
        (fun t => match task_status_from_line t.raw with
          | some st => decide (st ∈ ["done", "cancelled"])
          | none => false)
        [⟨["a.md"], 1, "- [ ] one".data⟩, ⟨["a.md"], 2, "- [x] two".data⟩,
          ⟨["a.md"], 3, "- [-] three".data⟩, ⟨["a.md"], 4, "- [>] four".data⟩] :=
  (c5_filter_by_statuses _ ["done", "cancelled"]).2.2.1 ⟨"done", by decide, by decide⟩

/-- On a task line, the priority test reduces to the length bound and the
`" ! "` comparison at offset 5. -/
theorem priority_eval (line : List Char) (ht : is_markdown_task_line line = true) :
    is_priority_task_line line =
      (decide (8 ≤ (pyLstrip line).length) &&
        decide (((pyLstrip line).drop 5).take 3 = " ! ".data)) := by
  unfold is_priority_task_line
  rw [ht]
  simp

/-- **C6**: a line is priority-marked iff it is a task line and the characters
immediately after the closing `]` are exactly space, `!`, space; the three
scenario lines behave as specified and a non-task line is never priority. -/
theorem c6_priority_marker (line : List Char) :
    (is_priority_task_line line = true ↔
      ∃ b c rest, pyLstrip line = b :: ' ' :: '[' :: c :: ']' :: rest ∧
        (b = '-' ∨ b = '*') ∧ rest ≠ [] ∧ rest.take 3 = [' ', '!', ' ']) ∧
    is_priority_task_line "- [ ] ! important".data = true ∧
    is_priority_task_line "- [ ] !important".data = false ∧
    is_priority_task_line "- [ ]  ! x".data = false ∧
    is_priority_task_line "hello !".data = false := by
  refine ⟨?_, by decide, by decide, by decide, by decide⟩
  by_cases ht : is_markdown_task_line line = true
  · obtain ⟨b, c, rest, hs, hb, hne⟩ := (taskLine_shape_iff line).1 ht
    rw [priority_eval line ht]
    constructor
    · intro h
      rw [Bool.and_eq_true, decide_eq_true_eq, decide_eq_true_eq] at h
      refine ⟨b, c, rest, hs, hb, hne, ?_⟩
      have h2 := h.2
      rw [hs] at h2
      simpa using h2
    · rintro ⟨b2, c2, rest2, hs2, hb2, hne2, htake⟩
      have hlen3 : 3 ≤ rest2.length := by
        have := congrArg List.length htake
        simp at this
        omega
      rw [Bool.and_eq_true, decide_eq_true_eq, decide_eq_true_eq]
      constructor
      · rw [hs2]
        simp
        omega
      · rw [hs2]
        simpa using htake
  · have hfalse : is_priority_task_line line = false := by
      unfold is_priority_task_line
      rw [if_pos (by simpa using ht)]
    rw [hfalse]
    simp only [Bool.false_eq_true, false_iff]
    rintro ⟨b, c, rest, hs2, hb, hne, -⟩
    exact ht ((taskLine_shape_iff line).2 ⟨b, c, rest, hs2, hb, hne⟩)

/-- A path is a file exactly when some filesystem entry carries it. -/
theorem isFile_iff (fs : FS) (p : List String) :
    isFile fs p = true ↔ ∃ f ∈ fs, f.path = p := by
  unfold isFile
  rw [List.find?_isSome]
  simp

/-- **C7** (amended): the walker yields exactly the single-file root when its
extension lowercases to `.md`; otherwise, for a directory root, exactly the
files strictly below it whose name ends in `.md` — matched case-sensitively,
unlike the claim as stated — in ascending order of the joined path string; a
nonexistent root yields nothing. -/
theorem c7_walker (fs : FS) (root : List String) :
    (∀ p, p ∈ iter_markdown_files fs root ↔
      (if isFile fs root && pyLower (pySuffix (lastName root)) = ".md".data then p = root
       else isDir fs root = true ∧ isFile fs p = true ∧ underDir root p = true ∧
         globMd (lastName p) = true)) ∧
    (iter_markdown_files fs root).Pairwise (fun p q => pathLeB p q = true) ∧
    (isFile fs root = false → isDir fs root = false → iter_markdown_files fs root = []) := by
  refine ⟨?_, ?_, ?_⟩
  · intro p
    unfold iter_markdown_files
    by_cases h1 : (isFile fs root && pyLower (pySuffix (lastName root)) = ".md".data) = true
    · rw [if_pos h1, if_pos h1]
      simp
    · rw [if_neg h1, if_neg h1]
      by_cases h2 : (!(isFile fs root || isDir fs root)) = true
      · rw [if_pos h2]
        have hd : isDir fs root = false := by
          simp only [Bool.not_eq_eq_eq_not, Bool.not_true, Bool.or_eq_false_iff] at h2
          exact h2.2
        simp [hd]
      · rw [if_neg h2]
        by_cases h3 : isDir fs root = true
        · rw [if_pos h3, mem_sortPaths]
          rw [List.mem_filterMap]
          constructor
          · rintro ⟨f, hf, heq⟩
            rw [Option.ite_none_right_eq_some, Option.some.injEq] at heq
            obtain ⟨hcond, rfl⟩ := heq
            rw [Bool.and_eq_true] at hcond
            exact ⟨h3, (isFile_iff fs f.path).2 ⟨f, hf, rfl⟩, hcond.1, hcond.2⟩
          · rintro ⟨-, hfile, hunder, hglob⟩
            obtain ⟨f, hf, rfl⟩ := (isFile_iff fs p).1 hfile
            refine ⟨f, hf, ?_⟩
            rw [Option.ite_none_right_eq_some, Option.some.injEq]
            refine ⟨?_, rfl⟩
            rw [Bool.and_eq_true]
            exact ⟨hunder, hglob⟩
        · rw [if_neg h3]
          simp [h3]
  · unfold iter_markdown_files
    split_ifs
    · exact List.pairwise_singleton _ _
    · exact List.Pairwise.nil
    · exact pairwise_sortLe pathLeB pathLeB_total pathLeB_trans _
    · exact List.Pairwise.nil
  · intro hf hd
    unfold iter_markdown_files
    rw [if_neg (by simp [hf]), if_pos (by simp [hf, hd])]

/-- **C7** witness: the walker on a nonexistent root yields nothing. -/
theorem c7_witness : iter_markdown_files ([] : FS) ["v"] = [] :=
  (c7_walker [] ["v"]).2.2 (by decide) (by decide)

/-- **C7** counterexample: a directory containing only the file `A.MD` — whose
extension equals `.md` case-insensitively, as witnessed by the lowercased
suffix — yields nothing, because the directory enumeration matches `*.md`
case-sensitively. -/
theorem c7_counterexample :
    iter_markdown_files [⟨["v", "A.MD"], []⟩] ["v"] = [] ∧
      underDir ["v"] ["v", "A.MD"] = true ∧
      pyLower (pySuffix (lastName ["v", "A.MD"])) = ".md".data := by
  refine ⟨?_, by decide, by decide⟩
  decide

/-- `find_notes_by_name` strips its argument itself, so pre-stripping the name
(as `cli._cmd_note` does) changes nothing. -/
theorem find_strip_invariant (fs : FS) (vault : List String) (name : String) :
    find_notes_by_name fs vault (pyStripS name) = find_notes_by_name fs vault name := by
  unfold find_notes_by_name
  rw [show (pyStripS name).data = pyStrip name.data from rfl, pyStrip_idem]

/-- **C8**: the note-by-name query extracts from exactly the files whose stem
equals the (stripped) name, concatenated in sorted path order, and zero
matches is surfaced as an error (exit code 2) rather than an empty result. -/
theorem c8_note_query (fs : FS) (vault : List String) (name : String) :
    (∀ p, p ∈ find_notes_by_name fs vault name ↔
      isDir fs vault = true ∧ pyStrip name.data ≠ [] ∧ isFile fs p = true ∧
        underDir vault p = true ∧ globMd (lastName p) = true ∧
        pyStem (lastName p) = pyStrip name.data) ∧
    (find_notes_by_name fs vault name).Pairwise (fun p q => pathLeB p q = true) ∧
    (find_notes_by_name fs vault name = [] →
      cmd_note_result fs vault name none false =
        .error (if pyStripS name = "" then "note name is required" else "no note found")) ∧
    (find_notes_by_name fs vault name ≠ [] →
      cmd_note_result fs vault name none false =
        .ok ((find_notes_by_name fs vault name).flatMap (extract_tasks_from_file fs))) := by
  refine ⟨?_, ?_, ?_, ?_⟩
  · intro p
    unfold find_notes_by_name
    by_cases h1 : (!isDir fs vault) = true
    · rw [if_pos h1]
      have : isDir fs vault = false := by simpa using h1
      simp [this]
    · rw [if_neg h1]
      have hdir : isDir fs vault = true := by simpa using h1
      by_cases h2 : (pyStrip name.data).isEmpty = true
      · rw [if_pos h2]
        have : pyStrip name.data = [] := by simpa [List.isEmpty_iff] using h2
        simp [this, hdir]
      · rw [if_neg h2]
        have hne : pyStrip name.data ≠ [] := by simpa [List.isEmpty_iff] using h2
        rw [mem_sortPaths, List.mem_filterMap]
        constructor
        · rintro ⟨f, hf, heq⟩
          rw [Option.ite_none_right_eq_some, Option.some.injEq] at heq
          obtain ⟨hcond, rfl⟩ := heq
          rw [Bool.and_eq_true, Bool.and_eq_true] at hcond
          exact ⟨hdir, hne, (isFile_iff fs f.path).2 ⟨f, hf, rfl⟩, hcond.1.1, hcond.1.2,
            by simpa using hcond.2⟩
        · rintro ⟨-, -, hfile, hunder, hglob, hstem⟩
          obtain ⟨f, hf, rfl⟩ := (isFile_iff fs p).1 hfile
          refine ⟨f, hf, ?_⟩
          rw [Option.ite_none_right_eq_some, Option.some.injEq]
          refine ⟨?_, rfl⟩
          rw [Bool.and_eq_true, Bool.and_eq_true]
          exact ⟨⟨hunder, hglob⟩, by simpa using hstem⟩
  · simp only [find_notes_by_name]
    split_ifs
    · exact List.Pairwise.nil
    · exact List.Pairwise.nil
    · exact pairwise_sortLe pathLeB pathLeB_total pathLeB_trans _
  · intro hempty
    unfold cmd_note_result
    by_cases hname : pyStripS name = ""
    · rw [if_pos hname, if_pos hname]
    · rw [if_neg hname, if_neg hname, find_strip_invariant, hempty]
  · intro hne
    by_cases hname : pyStripS name = ""
    · exfalso
      apply hne
      have hdata : pyStrip name.data = [] := by
        have := congrArg String.data hname
        simpa [pyStripS] using this
      simp only [find_notes_by_name]
      split_ifs with h1 h2
      · rfl
      · rfl
      · simp [hdata] at h2
    · unfold cmd_note_result
      rw [if_neg hname, find_strip_invariant]
      cases hm : find_notes_by_name fs vault name with
      | nil => exact absurd hm hne
      | cons m ms => rfl

/-- **C8** witness: a one-note vault queried by its stem returns its tasks,
and an empty vault yields the error result. -/
theorem c8_witness :
    cmd_note_result [⟨["v", "X.md"], "- [ ] a\n".data⟩] ["v"] "X" none false =
        .ok [⟨["v", "X.md"], 1, "- [ ] a".data⟩] ∧
      cmd_note_result ([] : FS) ["v"] "Y" none false = .error "no note found" := by
  constructor
  · have h := (c8_note_query [⟨["v", "X.md"], "- [ ] a\n".data⟩] ["v"] "X").2.2.2
      (by decide)
    rw [h]
    have h2 : (find_notes_by_name [⟨["v", "X.md"], "- [ ] a\n".data⟩] ["v"] "X").flatMap
        (extract_tasks_from_file [⟨["v", "X.md"], "- [ ] a\n".data⟩]) =
        [⟨["v", "X.md"], 1, "- [ ] a".data⟩] := by decide
    rw [h2]
  · have h := (c8_note_query ([] : FS) ["v"] "Y").2.2.1 (by decide)
    rw [h]
    have h2 : (if pyStripS "Y" = "" then "note name is required" else "no note found") =
        "no note found" := by decide
    rw [h2]

/-- **C3**: appending `"hello"` to a fresh note `X` creates `X.md` containing
exactly `"- [ ] hello\n"`; a second append of `"- [ ] world"` yields the two
task lines in order with the earlier bytes preserved; and in general the
written content is the existing content followed by the normalised line, with
a separating newline inserted exactly when the existing content is non-empty
and does not already end in a newline. -/
theorem c3_append_round_trip :
    (append_task_to_note ([] : FS) ["v"] "X" "hello" =
      some ([⟨["v", "X.md"], "- [ ] hello\n".data⟩], ["v", "X.md"])) ∧
    (append_task_to_note [⟨["v", "X.md"], "- [ ] hello\n".data⟩] ["v"] "X" "- [ ] world" =
      some ([⟨["v", "X.md"], "- [ ] hello\n- [ ] world\n".data⟩], ["v", "X.md"])) ∧
    (∀ (fs : FS) (vault : List String) (name text : String) (fs2 : FS) (p : List String),
      append_task_to_note fs vault name text = some (fs2, p) →
      ∃ task_line, normalize_task_text text.data = some task_line ∧
        fileAt fs2 p = some (appendedContent (readFile fs p) task_line)) ∧
    (∀ (existing task_line : List Char),
      ((existing = [] ∨ existing.getLast? = some '\n') →
        appendedContent existing task_line = existing ++ task_line ++ ['\n']) ∧
      (existing ≠ [] → existing.getLast? ≠ some '\n' →
        appendedContent existing task_line = existing ++ '\n' :: (task_line ++ ['\n']))) := by
  refine ⟨by decide, by decide, ?_, ?_⟩
  · intro fs vault name text fs2 p h
    unfold append_task_to_note at h
    cases hres : resolve_note_path fs vault name with
    | none => rw [hres] at h; cases h
    | some note_path =>
      rw [hres] at h
      cases hnorm : normalize_task_text text.data with
      | none => rw [hnorm] at h; cases h
      | some task_line =>
        rw [hnorm] at h
        obtain ⟨rfl, rfl⟩ : fs2 = writeFile fs note_path
            (appendedContent (readFile fs note_path) task_line) ∧ p = note_path := by
          have := Option.some.inj h
          exact ⟨congrArg Prod.fst this |>.symm, congrArg Prod.snd this |>.symm⟩
        exact ⟨task_line, rfl, fileAt_writeFile _ _ _⟩
  · intro existing task_line
    constructor
    · rintro (rfl | hlast)
      · rfl
      · unfold appendedContent
        rw [if_neg (by simp [hlast])]
    · intro hne hlast
      unfold appendedContent
      rw [if_pos]
      · simp
      · rw [Bool.and_eq_true]
        constructor
        · simpa [List.isEmpty_iff] using hne
        · simpa using hlast

/-- **C3** witness: the general content equation applied to a concrete second
append, and the separating-newline rule applied to content without a trailing
newline. -/
theorem c3_witness :
    (∃ task_line, normalize_task_text "- [ ] world".data = some task_line ∧
      fileAt [⟨["v", "X.md"], "- [ ] hello\n- [ ] world\n".data⟩] ["v", "X.md"] =
        some (appendedContent
          (readFile [⟨["v", "X.md"], "- [ ] hello\n".data⟩] ["v", "X.md"]) task_line)) ∧
    appendedContent "# T".data "- [ ] w".data =
      "# T".data ++ '\n' :: ("- [ ] w".data ++ ['\n']) := by
  constructor
  · exact c3_append_round_trip.2.2.1 [⟨["v", "X.md"], "- [ ] hello\n".data⟩] ["v"] "X"
      "- [ ] world" [⟨["v", "X.md"], "- [ ] hello\n- [ ] world\n".data⟩] ["v", "X.md"]
      (by decide)
  · exact (c3_append_round_trip.2.2.2 "# T".data "- [ ] w".data).2 (by decide) (by decide)

/-- The status filter never adds or reorders tasks. -/
theorem filter_statuses_sublist (tasks : List Task) (st : Option (List String)) :
    List.Sublist (filter_tasks_by_statuses tasks st) tasks := by
  cases st with
  | none => exact List.Sublist.refl _
  | some ss =>
    simp only [filter_tasks_by_statuses]
    split_ifs
    · exact List.nil_sublist _
    · exact List.filter_sublist _

/-- The priority filter never adds or reorders tasks. -/
theorem filter_priority_sublist (tasks : List Task) (b : Bool) :
    List.Sublist (filter_tasks_by_priority tasks b) tasks := by
  unfold filter_tasks_by_priority
  split_ifs
  · exact List.Sublist.refl _
  · exact List.filter_sublist _

/-- **C10**: every task of a per-file extraction is a task line, sits at a
1-based line number within the file's line count, and its raw text contains no
newline. -/
theorem c10_extraction_invariant (path : List String) (content : List Char) (t : Task)
    (h : t ∈ extract_tasks_from_content path content) :
    is_markdown_task_line t.raw = true ∧ 1 ≤ t.line_no ∧
      t.line_no ≤ (pySplitlines content).length ∧ ∀ c ∈ t.raw, c ≠ '\n' := by
  obtain ⟨i, l, hget, htask, rfl⟩ := (mem_extract_content path content t).1 h
  have hlmem : l ∈ pySplitlines content := List.getElem?_mem hget
  have hnl : ∀ c ∈ l, c ≠ '\n' := splitlines_no_newline content l hlmem
  have hr : rstripNl l = l := rstripNl_eq_self l hnl
  refine ⟨?_, ?_, ?_, ?_⟩
  · simpa [hr] using htask
  · simp
  · have hlt : i < (pySplitlines content).length := (List.getElem?_eq_some_iff.1 hget).1
    simpa using hlt
  · intro c hc
    exact hnl c (by rwa [hr] at hc)

/-- **C10** witness: the invariant applied to the single task extracted from a
one-line file. -/
theorem c10_witness :
    is_markdown_task_line ((⟨["a.md"], 1, "- [ ] x".data⟩ : Task).raw) = true ∧
      1 ≤ (⟨["a.md"], 1, "- [ ] x".data⟩ : Task).line_no ∧
      (⟨["a.md"], 1, "- [ ] x".data⟩ : Task).line_no ≤
        (pySplitlines "- [ ] x\n".data).length ∧
      ∀ c ∈ (⟨["a.md"], 1, "- [ ] x".data⟩ : Task).raw, c ≠ '\n' :=
  c10_extraction_invariant ["a.md"] "- [ ] x\n".data ⟨["a.md"], 1, "- [ ] x".data⟩
    (by decide)

/-- **C9**: both aggregation pipelines — the day query (daily note plus
backlinks) and the overdue query — never return two tasks with the same
`(file, line_number)`. -/
theorem c9_dedup_invariant (fs : FS) (vault : List String) (calS : String)
    (cal : Option String) (target today : Date) (statusRaw : Option String) (prio : Bool) :
    (cmd_day_tasks fs vault calS target statusRaw prio).Pairwise
      (fun a b => (a.file, a.line_no) ≠ (b.file, b.line_no)) ∧
    (cmd_overdue_tasks fs vault cal today statusRaw prio).Pairwise
      (fun a b => (a.file, a.line_no) ≠ (b.file, b.line_no)) := by
  constructor
  · unfold cmd_day_tasks
    have hded := pairwise_dedupBy (fun t : Task => (pathString t.file, t.line_no))
      (extract_tasks_from_today_note fs vault calS target ++
        extract_backlinked_tasks fs vault
          (resolve_calendar_daily_note_path vault calS target) false)
    have hstr : (dedupBy (fun t : Task => (pathString t.file, t.line_no))
        (extract_tasks_from_today_note fs vault calS target ++
          extract_backlinked_tasks fs vault
            (resolve_calendar_daily_note_path vault calS target) false)).Pairwise
        (fun a b => (a.file, a.line_no) ≠ (b.file, b.line_no)) := by
      refine hded.imp ?_
      intro a b hne heq
      apply hne
      rw [Prod.ext_iff] at heq
      simp only [] at heq
      rw [show a.file = b.file from heq.1, show a.line_no = b.line_no from heq.2]
    exact List.Pairwise.sublist
      ((filter_priority_sublist _ _).trans (filter_statuses_sublist _ _)) hstr
  · unfold cmd_overdue_tasks
    have hded := pairwise_dedupBy (fun t : Task => (t.file, t.line_no))
      (extract_tasks_from_past_daily_notes fs vault cal today ++
        extract_tasks_with_past_date_backlinks fs vault today)
    have hkey : (extract_overdue_tasks fs vault cal today).Pairwise
        (fun a b => (a.file, a.line_no) ≠ (b.file, b.line_no)) := hded
    have hfilt : ∀ (sts : Option (List String)) (b : Bool),
        (filter_tasks_by_priority (filter_tasks_by_statuses
          (extract_overdue_tasks fs vault cal today) sts) b).Pairwise
          (fun a b => (a.file, a.line_no) ≠ (b.file, b.line_no)) := by
      intro sts b
      exact List.Pairwise.sublist
        ((filter_priority_sublist _ _).trans (filter_statuses_sublist _ _)) hkey
    exact (List.Perm.pairwise_iff (fun h he => h he.symm) (perm_sortLe taskKeyLeB _)).2
      (hfilt _ _)

/-- **C2**: the overdue extraction returns exactly the union of the tasks of
past daily notes and the task lines with at least one past date reference
(a line mixing past and future references is kept), deduplicated; when the
CLI gets no status filter it filters the result to status `open` before
sorting; and the concrete three-file scenario evaluates as claimed. -/
theorem c2_overdue_query (fs : FS) (vault : List String) (cal : Option String) (today : Date) :
    (∀ t, t ∈ extract_overdue_tasks fs vault cal today ↔
      t ∈ extract_tasks_from_past_daily_notes fs vault cal today ∨
        t ∈ extract_tasks_with_past_date_backlinks fs vault today) ∧
    (∀ t, t ∈ extract_tasks_from_past_daily_notes fs vault cal today ↔
      ∃ d p, (d, p) ∈ iter_daily_notes fs vault cal ∧ dateLt d today = true ∧
        t ∈ extract_tasks_from_file fs p) ∧
    (∀ t, t ∈ extract_tasks_with_past_date_backlinks fs vault today ↔
      ∃ md, md ∈ iter_markdown_files fs vault ∧
        ∃ i l, (pySplitlines (readFile fs md))[i]? = some l ∧ pastDateLine today l = true ∧
          t = ⟨md, i + 1, rstripNl l⟩) ∧
    (cmd_overdue_tasks fs vault cal today none false =
      sortTasksByPathLine (filter_tasks_by_statuses
        (extract_overdue_tasks fs vault cal today) (some ["open"]))) ∧
    cmd_overdue_tasks
        [⟨["v", "2025-01-01.md"], "- [ ] a\n".data⟩,
          ⟨["v", "2025-01-03.md"], "- [ ] b\n".data⟩,
          ⟨["v", "Work.md"], "- [ ] mix [[2025-01-02]] [[2025-01-09]]\n".data⟩]
        ["v"] none ⟨2025, 1, 3⟩ none false =
      [⟨["v", "2025-01-01.md"], 1, "- [ ] a".data⟩,
        ⟨["v", "Work.md"], 1, "- [ ] mix [[2025-01-02]] [[2025-01-09]]".data⟩] := by
  refine ⟨?_, ?_, ?_, rfl, by decide⟩
  · intro t
    unfold extract_overdue_tasks
    rw [mem_dedupBy_iff _ _ _ ?_, List.mem_append]
    intro x hx y hy hk
    have hcx : taskConsistent fs x := by
      rcases List.mem_append.1 hx with h2 | h2
      · exact consistent_pastDaily fs vault cal today x h2
      · exact consistent_pastBacklinks fs vault today x h2
    have hcy : taskConsistent fs y := by
      rcases List.mem_append.1 hy with h2 | h2
      · exact consistent_pastDaily fs vault cal today y h2
      · exact consistent_pastBacklinks fs vault today y h2
    rw [Prod.ext_iff] at hk
    exact consistent_inj fs x y hcx hcy hk.1 hk.2
  · intro t
    unfold extract_tasks_from_past_daily_notes
    rw [List.mem_flatMap]
    constructor
    · rintro ⟨dp, hdp, ht⟩
      rw [List.mem_filter] at hdp
      exact ⟨dp.1, dp.2, hdp.1, hdp.2, ht⟩
    · rintro ⟨d, p, hmem, hlt, ht⟩
      exact ⟨(d, p), List.mem_filter.2 ⟨hmem, hlt⟩, ht⟩
  · intro t
    unfold extract_tasks_with_past_date_backlinks
    rw [mem_dedupBy_iff _ _ _ ?_]
    · unfold pastBacklinkCandidates
      rw [List.mem_flatMap]
      constructor
      · rintro ⟨md, hmd, hmem⟩
        obtain ⟨i, l, hget, hcond, rfl⟩ := (mem_scan_lines md (readFile fs md) _ t).1 hmem
        exact ⟨md, hmd, i, l, hget, hcond, rfl⟩
      · rintro ⟨md, hmd, i, l, hget, hcond, rfl⟩
        exact ⟨md, hmd, (mem_scan_lines md (readFile fs md) _ _).2 ⟨i, l, hget, hcond, rfl⟩⟩
    · intro x hx y hy hk
      rw [Prod.ext_iff] at hk
      exact consistent_inj fs x y (consistent_backCand fs vault today x hx)
        (consistent_backCand fs vault today y hy) hk.1 hk.2

example : is_markdown_task_line "- [ ] hello".data = true := by decide
example : is_markdown_task_line "- [x]".data = false := by decide
example : is_markdown_task_line "    - [ ] indented".data = true := by decide
example : is_markdown_task_line "- [] nope".data = false := by decide
example : task_status_from_line "- [X] done".data = some "done" := by decide
example : task_status_from_line "- [?] maybe".data = none := by decide
example : is_priority_task_line "- [ ] ! important".data = true := by decide
example : is_priority_task_line "- [ ] !important".data = false := by decide
example : pySplitlines "a\r\nb\nc".data = ["a".data, "b".data, "c".data] := by decide
example : normalize_task_text " hello ".data = some "- [ ] hello".data := by decide

end ObsidianTasks
